import Mathlib

/-!
Verification of the solar-observation dashboard frontend
(Frontend/src/App.tsx and Frontend/src/StatsOverTime.tsx).

Shallow embedding conventions: JS numbers carrying image statistics are
modelled as rationals; JS strings as Lean strings (and, for the
character-offset date formatter, as lists of characters); JS objects used
as keyed maps as association lists in key-insertion order; the
single-threaded event loop as a step function over an explicit state,
driven by a trace of invocation and resolution events.
-/

/-- Image statistics of one FITS observation (the `stats` field of the
`FITSData` interface, App.tsx lines 137-146). -/
structure Stats where
  min : Rat
  max : Rat
  mean : Rat
  stdev : Rat
  deriving DecidableEq

/-- One cached FITS-data record (the `FITSData` interface, App.tsx lines
137-146): the statistics plus the two base64-encoded images. -/
structure FITSData where
  stats : Stats
  histogram : String
  image : String
  deriving DecidableEq

/-- Property read `item.observation_date` (StatsOverTime.tsx line 14): the
`FITSData` interface has exactly the fields `stats`, `histogram` and `image`
(App.tsx lines 137-146), and the records stored in the cache come from the
`/api/fits-data` endpoint with that same shape, so this read yields
`undefined` (modelled as `none`) on every record the component receives. -/
def observationDateField (_ : FITSData) : Option String := none

/-- Lookup of a key in a JS object modelled as an association list; absent
keys read as `undefined`, modelled as `none`. -/
def getKey {α : Type} : List (String × α) → String → Option α
  | [], _ => none
  | (k', v) :: rest, k => if k' = k then some v else getKey rest k

/-- The object spread update storing a value under a key: an existing key
keeps its position and receives the new value, a new key is appended last
(JS object insertion order). -/
def setKey {α : Type} : List (String × α) → String → α → List (String × α)
  | [], k, v => [(k, v)]
  | (k', v') :: rest, k, v =>
    if k' = k then (k, v) :: rest else (k', v') :: setKey rest k v

/-- JSON values returned by the file-list endpoint: a 2xx response carries an
array of filename strings, a non-2xx response carries an object with an
error message (spec section 6). -/
inductive Json where
  | arr (files : List String)
  | obj (errorMsg : String)
  deriving DecidableEq

/-- Result of `await fetch(...)` plus `await response.json()` for the
file-list endpoint: either a parsed response with its `response.ok` flag and
JSON body, or a thrown transport or parse failure (the `catch` path). -/
inductive FilesResponse where
  | response (ok : Bool) (body : Json)
  | failure
  deriving DecidableEq

/-- Outcome of one dispatched `/api/fits-data` call, as observed by the code
after `await response.json()`: a 2xx response parsed into a record, a non-2xx
response whose JSON body carries an error message, or a thrown transport
failure. -/
inductive Outcome where
  | success (record : FITSData)
  | httpError (msg : String)
  | transport
  deriving DecidableEq

/-- The App component state (App.tsx lines 148-155) restricted to the fields
the core logic touches, extended with observable external-call bookkeeping:
`pending` holds the keys of dispatched but not yet resolved fits-data calls,
and `calls` logs every dispatched fits-data call key in dispatch order. -/
structure AppState where
  fitsData : List (String × FITSData)
  files : List (String × Json)
  error : Option String
  loading : Bool
  pending : List String
  calls : List String
  deriving DecidableEq

/-- Initial component state: the `useState` defaults of App.tsx lines
151-154, with no external call dispatched yet. -/
def initialState : AppState :=
  { fitsData := [], files := [], error := none, loading := true,
    pending := [], calls := [] }

/-- Cache key of an observation (App.tsx line 191). -/
def mkKey (year filename : String) : String := year ++ "/" ++ filename

/-- Synchronous prefix of `fetchFITSData` (App.tsx lines 190-196) up to its
first `await`: if the key is already cached the function returns at once
with the state unchanged; otherwise it sets the loading flag and dispatches
exactly one external call for the key. -/
def fetchFITSDataStart (s : AppState) (year filename : String) : AppState :=
  match getKey s.fitsData (mkKey year filename) with
  | some _ => s
  | none =>
    { s with loading := true, pending := s.pending ++ [mkKey year filename],
             calls := s.calls ++ [mkKey year filename] }

/-- Continuation of `fetchFITSData` after its awaits settle (App.tsx lines
196-207): on a 2xx response the record is stored under the key, on a non-2xx
response the error message from the body is surfaced, on a thrown failure the
fixed message is surfaced; the `finally` clause clears the loading flag. A
resolution for a key with no call in flight has no continuation to run. -/
def fetchFITSDataComplete (s : AppState) (key : String) (out : Outcome) :
    AppState :=
  if key ∈ s.pending then
    let s' := { s with pending := s.pending.erase key, loading := false }
    match out with
    | .success r => { s' with fitsData := setKey s'.fitsData key r }
    | .httpError msg => { s' with error := some msg }
    | .transport => { s' with error := some "Failed to fetch FITS data" }
  else s

/-- One event on the single-threaded event loop: an invocation of
`fetchFITSData`, or the resolution of one dispatched call. -/
inductive Event where
  | invoke (year filename : String)
  | resolve (key : String) (out : Outcome)
  deriving DecidableEq

/-- Interleaved execution step. -/
def appStep (s : AppState) : Event → AppState
  | .invoke year filename => fetchFITSDataStart s year filename
  | .resolve key out => fetchFITSDataComplete s key out

/-- Run a trace of events from the initial state. -/
def appRun (t : List Event) : AppState := t.foldl appStep initialState

/-- A trace is well formed when every resolution event resolves a call that
is actually in flight at that point; completions can only come from
dispatched requests. -/
def wfTrace (s : AppState) : List Event → Bool
  | [] => true
  | e :: es =>
    (match e with
     | .resolve key _ => decide (key ∈ s.pending)
     | .invoke _ _ => true) && wfTrace (appStep s e) es

/-- The `fetchFilesForYear` completion (App.tsx lines 180-188): the parsed
JSON body is stored as the catalog entry for the year without consulting
`response.ok`; only a thrown failure is caught, which surfaces the error
message and stores nothing. -/
def fetchFilesForYear (s : AppState) (year : String) (resp : FilesResponse) :
    AppState :=
  match resp with
  | .response _ body => { s with files := setKey s.files year body }
  | .failure =>
    { s with error := some ("Failed to fetch files for year " ++ year) }

/-- JS `key.startsWith(selectedYear)` (StatsOverTime.tsx line 76). -/
def jsStartsWith (s p : String) : Bool := p.data.isPrefixOf s.data

/-- The cache entries `EnhancedStats` keeps (StatsOverTime.tsx lines 75-77):
entries whose key has the selected year as a string prefix. -/
def includedEntries (selectedYear : String)
    (fitsData : List (String × FITSData)) : List (String × FITSData) :=
  fitsData.filter (fun kv => jsStartsWith kv.1 selectedYear)

/-- One point of the time-series chart (StatsOverTime.tsx lines 13-19). -/
structure ChartPoint where
  date : String
  min : Rat
  max : Rat
  mean : Rat
  stdev : Rat
  deriving DecidableEq

/-- The chart-data mapping of `StatsOverTime` (StatsOverTime.tsx lines
12-19). `toLocale` models the locale-dependent `Date.toLocaleDateString` on a
defined date string; `new Date(undefined)` is an invalid date, which
`toLocaleDateString` renders as the fixed string "Invalid Date". -/
def StatsOverTime (toLocale : String → String) (data : List FITSData) :
    List ChartPoint :=
  data.map (fun item =>
    { date := match observationDateField item with
              | none => "Invalid Date"
              | some s => toLocale s
    , min := item.stats.min
    , max := item.stats.max
    , mean := item.stats.mean
    , stdev := item.stats.stdev })

/-- JS `Math.max` over a spread list; `none` models the `-Infinity` result on
an empty list (never reached from `EnhancedStats`, which returns early when
the array is empty). -/
def mathMax (l : List Rat) : Option Rat :=
  match l with
  | [] => none
  | x :: xs => some (xs.foldl max x)

/-- JS `Math.min` over a spread list; `none` models `Infinity` on empty. -/
def mathMin (l : List Rat) : Option Rat :=
  match l with
  | [] => none
  | x :: xs => some (xs.foldl min x)

/-- The summary values computed by `DataSummary`
(StatsOverTime.tsx lines 43-48). -/
structure SummaryStats where
  totalObservations : Nat
  averageIntensity : Rat
  maxIntensity : Option Rat
  minIntensity : Option Rat
  deriving DecidableEq

/-- The `DataSummary` computation (StatsOverTime.tsx lines 43-48). The
division in the empty case (`NaN` in JS, `0` in `Rat`) is never reached from
`EnhancedStats`, which returns early on an empty array. -/
def DataSummary (data : List FITSData) : SummaryStats :=
  { totalObservations := data.length
  , averageIntensity :=
      (data.foldl (fun acc curr => acc + curr.stats.mean) 0) /
        (data.length : Rat)
  , maxIntensity := mathMax (data.map (fun item => item.stats.max))
  , minIntensity := mathMin (data.map (fun item => item.stats.min)) }

/-- The `EnhancedStats` component (StatsOverTime.tsx lines 74-89): filter the
cache to keys starting with the selected year, return `null` (modelled as
`none`) when nothing matches, otherwise render the summary and the series. -/
def EnhancedStats (toLocale : String → String) (selectedYear : String)
    (fitsData : List (String × FITSData)) :
    Option (SummaryStats × List ChartPoint) :=
  let dataArray := (includedEntries selectedYear fitsData).map (fun kv => kv.2)
  if dataArray.length = 0 then none
  else some (DataSummary dataArray, StatsOverTime toLocale dataArray)

/-- Year component of a cache key as the spec words it: the part of the key
before the first slash (keys are built as year ++ "/" ++ filename,
App.tsx line 191). -/
def yearComponent (key : String) : String :=
  String.mk (key.data.takeWhile (fun c => !decide (c = '/')))

/-- Spec-side filtering rule (spec section 4.3), stated from the spec's
words for comparison with the code's `includedEntries`: include exactly the
entries whose key's year component equals the selected year under string
equality. -/
def specIncludedEntries (selectedYear : String)
    (fitsData : List (String × FITSData)) : List (String × FITSData) :=
  fitsData.filter (fun kv => yearComponent kv.1 == selectedYear)

/-- JS `String.split` with a single-character separator, on strings modelled
as character lists: splitting the empty string gives one empty segment, and
separators at the ends or adjacent to each other produce empty segments,
exactly as in JS. -/
def splitOnChar (sep : Char) : List Char → List (List Char)
  | [] => [[]]
  | c :: cs =>
    if c = sep then [] :: splitOnChar sep cs
    else
      match splitOnChar sep cs with
      | [] => [[c]]
      | seg :: segs => (c :: seg) :: segs

/-- The `formatDateTime` utility (App.tsx lines 12-27) on filenames modelled
as character lists. An out-of-range index access (a `split(...)[1]` that is
`undefined`, whose subsequent `.split` or `.slice` would throw) is modelled
as `none`; `slice(a, b)` with constant offsets is `take b` then `drop a`. -/
def formatDateTime (filename : List Char) : Option (List Char) :=
  match (splitOnChar '.' filename).get? 1 with
  | none => none
  | some seg1 =>
    match (splitOnChar '_' filename).get? 1 with
    | none => none
    | some tseg =>
      let datePart := ((splitOnChar '_' seg1).get? 0).getD []
      let timePart := tseg.take 4
      let year := datePart.take 4
      let month := (datePart.take 6).drop 4
      let day := (datePart.take 8).drop 6
      let hours := timePart.take 2
      let minutes := (timePart.take 4).drop 2
      some (day ++ '/' :: month ++ '/' :: year ++ ' ' :: hours ++ ':' ::
        minutes)

/-- A concrete record used in scenario witnesses. -/
def rec0 : FITSData :=
  { stats := { min := 0, max := 0, mean := 0, stdev := 0 },
    histogram := "", image := "" }

/-- Reading back a keyed-store update: the updated key reads the new value,
every other key is untouched. -/
theorem getKey_setKey {α : Type} (m : List (String × α)) (k k' : String)
    (v : α) :
    getKey (setKey m k v) k' = if k = k' then some v else getKey m k' := by
  induction m with
  | nil => simp [setKey, getKey]
  | cons kv rest ih =>
    obtain ⟨a, b⟩ := kv
    by_cases hak : a = k
    · subst hak
      simp only [setKey, if_pos rfl, getKey]
      by_cases h' : a = k' <;> simp [h']
    · simp only [setKey, if_neg hak, getKey, ih]
      by_cases hak' : a = k'
      · subst hak'
        have : ¬ k = a := fun h => hak h.symm
        simp [this]
      · simp [hak']

/-- Invoking `fetchFITSData` does not change the cache: only a resolution
can. -/
theorem fetchFITSDataStart_fitsData (s : AppState) (year filename : String) :
    (fetchFITSDataStart s year filename).fitsData = s.fitsData := by
  unfold fetchFITSDataStart
  cases getKey s.fitsData (mkKey year filename) <;> rfl

/-- C1 counterexample. The claim predicts exactly one dispatched call for the
key; in the code the presence check `if (fitsData[key]) return` only fires
once the record is stored, so a second invocation made while the first is
still in flight (entry not yet stored, as the first conjunct shows)
dispatches a second call: two calls are logged, not one. -/
theorem requestCoalescing_counterexample :
    getKey (appRun [Event.invoke "2022" "f.fits"]).fitsData "2022/f.fits"
        = none
      ∧ (appRun [Event.invoke "2022" "f.fits",
          Event.invoke "2022" "f.fits"]).calls
        = ["2022/f.fits", "2022/f.fits"]
      ∧ ¬ (appRun [Event.invoke "2022" "f.fits",
          Event.invoke "2022" "f.fits"]).calls.length = 1 := by
  refine ⟨by decide, by decide, by decide⟩

/-- C1 as amended: while the entry for a key is not yet stored, every
invocation of `fetchFITSData` for that key dispatches a fresh external call —
there is no in-flight coalescing — so two invocations made before the first
resolution dispatch two calls in total. -/
theorem requestCoalescing_amended (s : AppState) (year filename : String)
    (h : getKey s.fitsData (mkKey year filename) = none) :
    (fetchFITSDataStart (fetchFITSDataStart s year filename) year filename).calls
      = s.calls ++ [mkKey year filename, mkKey year filename] := by
  unfold fetchFITSDataStart
  rw [h]
  simp only []
  rw [h]
  simp [List.append_assoc]

/-- C1 amended witness at the initial state. -/
theorem requestCoalescing_amended_witness :
    getKey initialState.fitsData (mkKey "2022" "f.fits") = none
      ∧ (fetchFITSDataStart (fetchFITSDataStart initialState "2022" "f.fits")
          "2022" "f.fits").calls
        = initialState.calls ++ [mkKey "2022" "f.fits", mkKey "2022" "f.fits"] :=
  ⟨by decide, requestCoalescing_amended initialState "2022" "f.fits" (by decide)⟩

/-- C2: once a record is stored for a key, any further `fetchFITSData`
invocation for that key returns immediately, leaving the whole state — in
particular the stored record and the call log — unchanged, so no new external
call is issued. -/
theorem loadedIsTerminal (s : AppState) (year filename : String) (r : FITSData)
    (h : getKey s.fitsData (mkKey year filename) = some r) :
    fetchFITSDataStart s year filename = s := by
  unfold fetchFITSDataStart
  rw [h]

/-- C2 witness: a state holding one loaded record, obtained by running a
successful fetch trace. -/
theorem loadedIsTerminal_witness :
    getKey (appRun [Event.invoke "2022" "a.fits",
        Event.resolve "2022/a.fits" (Outcome.success rec0)]).fitsData
        (mkKey "2022" "a.fits") = some rec0
      ∧ fetchFITSDataStart
          (appRun [Event.invoke "2022" "a.fits",
            Event.resolve "2022/a.fits" (Outcome.success rec0)])
          "2022" "a.fits"
        = appRun [Event.invoke "2022" "a.fits",
            Event.resolve "2022/a.fits" (Outcome.success rec0)] :=
  ⟨by decide,
    loadedIsTerminal _ "2022" "a.fits" rec0 (by decide)⟩

/-- C8 counterexample. A non-2xx file-list response whose body is the JSON
error object is not detected (`fetchFilesForYear` never checks
`response.ok`): the parsed error object itself is stored as the catalog entry
for the year, and no error is surfaced — the claim asserts the entry stays
absent and the error is surfaced. -/
theorem catalogAtomicity_counterexample :
    getKey (fetchFilesForYear initialState "2022"
        (FilesResponse.response false (Json.obj "no files for year"))).files
        "2022"
      = some (Json.obj "no files for year")
    ∧ (fetchFilesForYear initialState "2022"
        (FilesResponse.response false (Json.obj "no files for year"))).error
      = none := by
  exact ⟨by decide, by decide⟩

/-- C8 as amended: only a transport-level failure (the `fetch` or the JSON
parse throwing) is handled as the claim describes — the error is surfaced and
the catalog entry for the year remains absent, so a later call that succeeds
stores the file list; a non-2xx response is instead stored verbatim. -/
theorem catalogAtomicity_amended (s : AppState) (year : String)
    (h : getKey s.files year = none) :
    getKey (fetchFilesForYear s year FilesResponse.failure).files year = none
    ∧ (fetchFilesForYear s year FilesResponse.failure).error
      = some ("Failed to fetch files for year " ++ year)
    ∧ ∀ fs : List String,
        getKey (fetchFilesForYear (fetchFilesForYear s year
            FilesResponse.failure) year
            (FilesResponse.response true (Json.arr fs))).files year
          = some (Json.arr fs) := by
  refine ⟨h, rfl, fun fs => ?_⟩
  simp [fetchFilesForYear, getKey_setKey]

/-- C8 amended witness at the initial state. -/
theorem catalogAtomicity_amended_witness :
    getKey initialState.files "2022" = none
    ∧ (getKey (fetchFilesForYear initialState "2022"
          FilesResponse.failure).files "2022" = none
      ∧ (fetchFilesForYear initialState "2022" FilesResponse.failure).error
        = some ("Failed to fetch files for year " ++ "2022")
      ∧ ∀ fs : List String,
          getKey (fetchFilesForYear (fetchFilesForYear initialState "2022"
              FilesResponse.failure) "2022"
              (FilesResponse.response true (Json.arr fs))).files "2022"
            = some (Json.arr fs)) :=
  ⟨by decide, catalogAtomicity_amended initialState "2022" (by decide)⟩

/-- C7: when the aggregation includes zero entries for the selected year,
`EnhancedStats` returns the explicit empty result `none` (the component
returns `null` before any summary arithmetic runs), which is distinct from
every populated result and contains no numeric fields at all. -/
theorem emptySetHandling (toLocale : String → String) (year : String)
    (cache : List (String × FITSData))
    (h : includedEntries year cache = []) :
    EnhancedStats toLocale year cache = none := by
  simp [EnhancedStats, h]

/-- C7 witness: a cache whose only loaded entry is under year 2022 yields the
empty result for year 2023. -/
theorem emptySetHandling_witness :
    includedEntries "2023" [("2022/a.fits", rec0)] = []
    ∧ EnhancedStats id "2023" [("2022/a.fits", rec0)] = none :=
  ⟨by decide, emptySetHandling id "2023" [("2022/a.fits", rec0)] (by decide)⟩

/-- Scenario trace for failure isolation: file A and file B of year 2022 are
requested; A's call resolves with a 2xx record, B's call resolves with an
application-level error. -/
def failureTrace (rA : FITSData) (msg : String) : List Event :=
  [Event.invoke "2022" "fileA.fits", Event.invoke "2022" "fileB.fits",
   Event.resolve "2022/fileA.fits" (Outcome.success rA),
   Event.resolve "2022/fileB.fits" (Outcome.httpError msg)]

/-- C5: after file A succeeds and file B fails with an application-level
error, A's record is stored intact and B has no entry; the aggregate view for
the year contains exactly A's statistics; the failure only set the error
message; and a request for a further file C still dispatches its external
call (the core stays usable; every step of the model is a total function, no
exception escapes `fetchFITSData`). -/
theorem failureIsolation (rA : FITSData) (msg : String)
    (toLocale : String → String) :
    getKey (appRun (failureTrace rA msg)).fitsData "2022/fileA.fits" = some rA
    ∧ getKey (appRun (failureTrace rA msg)).fitsData "2022/fileB.fits" = none
    ∧ (appRun (failureTrace rA msg)).error = some msg
    ∧ (∃ pts, EnhancedStats toLocale "2022" (appRun (failureTrace rA msg)).fitsData
        = some ({ totalObservations := 1, averageIntensity := rA.stats.mean,
                  maxIntensity := some rA.stats.max,
                  minIntensity := some rA.stats.min }, pts))
    ∧ (fetchFITSDataStart (appRun (failureTrace rA msg)) "2022"
        "fileC.fits").calls
      = (appRun (failureTrace rA msg)).calls ++ ["2022/fileC.fits"] := by
  have hrun : appRun (failureTrace rA msg)
      = { fitsData := [("2022/fileA.fits", rA)], files := [],
          error := some msg, loading := false, pending := [],
          calls := ["2022/fileA.fits", "2022/fileB.fits"] } := rfl
  refine ⟨by rw [hrun]; rfl, by rw [hrun]; rfl, by rw [hrun], ?_,
    by rw [hrun]; rfl⟩
  refine ⟨StatsOverTime toLocale [rA], ?_⟩
  rw [hrun]
  have hench : EnhancedStats toLocale "2022" [("2022/fileA.fits", rA)]
      = some (DataSummary [rA], StatsOverTime toLocale [rA]) := rfl
  rw [hench]
  have hsum : DataSummary [rA]
      = { totalObservations := 1, averageIntensity := rA.stats.mean,
          maxIntensity := some rA.stats.max,
          minIntensity := some rA.stats.min } := by
    simp [DataSummary, mathMax, mathMin]
  rw [hsum]

/-- The reduce-with-accumulator sum of means equals the sum of the mapped
means. -/
theorem foldl_add_mean (l : List FITSData) (a : Rat) :
    l.foldl (fun acc curr => acc + curr.stats.mean) a
      = a + (l.map (fun it => it.stats.mean)).sum := by
  induction l generalizing a with
  | nil => simp
  | cons x xs ih => simp [ih, add_assoc]

/-- The left fold of `max` yields the seed or a list element. -/
theorem foldl_max_mem (xs : List Rat) (a : Rat) :
    xs.foldl max a = a ∨ xs.foldl max a ∈ xs := by
  induction xs generalizing a with
  | nil => exact Or.inl rfl
  | cons x xs ih =>
    rcases ih (max a x) with h | h
    · rcases max_choice a x with hm | hm
      · exact Or.inl (by rw [List.foldl_cons, h, hm])
      · exact Or.inr (by rw [List.foldl_cons, h, hm]; exact List.mem_cons_self x xs)
    · exact Or.inr (List.mem_cons_of_mem x h)

/-- The seed is below the left fold of `max`. -/
theorem le_foldl_max (xs : List Rat) (a : Rat) : a ≤ xs.foldl max a := by
  induction xs generalizing a with
  | nil => exact le_refl a
  | cons x xs ih => exact le_trans (le_max_left a x) (ih (max a x))

/-- Every element is below the left fold of `max`. -/
theorem mem_le_foldl_max (xs : List Rat) (a : Rat) :
    ∀ x ∈ xs, x ≤ xs.foldl max a := by
  induction xs generalizing a with
  | nil => intro x hx; cases hx
  | cons y ys ih =>
    intro x hx
    rcases List.mem_cons.mp hx with rfl | hx'
    · exact le_trans (le_max_right a x) (le_foldl_max ys (max a x))
    · exact ih (max a y) x hx'

/-- The left fold of `min` yields the seed or a list element. -/
theorem foldl_min_mem (xs : List Rat) (a : Rat) :
    xs.foldl min a = a ∨ xs.foldl min a ∈ xs := by
  induction xs generalizing a with
  | nil => exact Or.inl rfl
  | cons x xs ih =>
    rcases ih (min a x) with h | h
    · rcases min_choice a x with hm | hm
      · exact Or.inl (by rw [List.foldl_cons, h, hm])
      · exact Or.inr (by rw [List.foldl_cons, h, hm]; exact List.mem_cons_self x xs)
    · exact Or.inr (List.mem_cons_of_mem x h)

/-- The left fold of `min` is below the seed. -/
theorem foldl_min_le (xs : List Rat) (a : Rat) : xs.foldl min a ≤ a := by
  induction xs generalizing a with
  | nil => exact le_refl a
  | cons x xs ih => exact le_trans (ih (min a x)) (min_le_left a x)

/-- The left fold of `min` is below every element. -/
theorem foldl_min_le_mem (xs : List Rat) (a : Rat) :
    ∀ x ∈ xs, xs.foldl min a ≤ x := by
  induction xs generalizing a with
  | nil => intro x hx; cases hx
  | cons y ys ih =>
    intro x hx
    rcases List.mem_cons.mp hx with rfl | hx'
    · exact le_trans (foldl_min_le ys (min a x)) (min_le_right a x)
    · exact ih (min a y) x hx'

/-- C3: on every non-empty data array, `DataSummary` reports the number of
entries as the count, the sum of the means divided by the count as the
average intensity, a greatest element of the maxima as the maximum intensity,
and a least element of the minima as the minimum intensity. -/
theorem summaryCorrectness (data : List FITSData) (hne : data ≠ []) :
    (DataSummary data).totalObservations = data.length
    ∧ (DataSummary data).averageIntensity
      = (data.map (fun it => it.stats.mean)).sum / (data.length : Rat)
    ∧ (∃ m, (DataSummary data).maxIntensity = some m
        ∧ m ∈ data.map (fun it => it.stats.max)
        ∧ ∀ x ∈ data.map (fun it => it.stats.max), x ≤ m)
    ∧ (∃ m, (DataSummary data).minIntensity = some m
        ∧ m ∈ data.map (fun it => it.stats.min)
        ∧ ∀ x ∈ data.map (fun it => it.stats.min), m ≤ x) := by
  obtain ⟨x, xs, rfl⟩ := List.exists_cons_of_ne_nil hne
  refine ⟨rfl, ?_, ?_, ?_⟩
  · simp [DataSummary, foldl_add_mean]
  · have hmax : (DataSummary (x :: xs)).maxIntensity
        = some ((xs.map (fun it => it.stats.max)).foldl max x.stats.max) := rfl
    refine ⟨(xs.map (fun it => it.stats.max)).foldl max x.stats.max,
      hmax, ?_, ?_⟩
    · rcases foldl_max_mem (xs.map (fun it => it.stats.max)) x.stats.max
        with h | h
      · rw [h]; exact List.mem_cons_self _ _
      · exact List.mem_cons_of_mem _ h
    · intro y hy
      rcases List.mem_cons.mp hy with rfl | hy'
      · exact le_foldl_max _ _
      · exact mem_le_foldl_max _ _ y hy'
  · have hmin : (DataSummary (x :: xs)).minIntensity
        = some ((xs.map (fun it => it.stats.min)).foldl min x.stats.min) := rfl
    refine ⟨(xs.map (fun it => it.stats.min)).foldl min x.stats.min,
      hmin, ?_, ?_⟩
    · rcases foldl_min_mem (xs.map (fun it => it.stats.min)) x.stats.min
        with h | h
      · rw [h]; exact List.mem_cons_self _ _
      · exact List.mem_cons_of_mem _ h
    · intro y hy
      rcases List.mem_cons.mp hy with rfl | hy'
      · exact foldl_min_le _ _
      · exact foldl_min_le_mem _ _ y hy'

/-- First synthetic record of the spec's summary example: mean 1, max 10. -/
def recA : FITSData :=
  { stats := { min := 0, max := 10, mean := 1, stdev := 0 },
    histogram := "", image := "" }

/-- Second synthetic record of the spec's summary example: mean 2, max 20. -/
def recB : FITSData :=
  { stats := { min := 0, max := 20, mean := 2, stdev := 0 },
    histogram := "", image := "" }

/-- Third synthetic record of the spec's summary example: mean 6, max 5. -/
def recC : FITSData :=
  { stats := { min := 0, max := 5, mean := 6, stdev := 0 },
    histogram := "", image := "" }

/-- C3 witness: the spec's synthetic triple with means 1, 2, 6 and maxima
10, 20, 5 gives average intensity 3 and maximum intensity 20. -/
theorem summaryCorrectness_witness :
    ([recA, recB, recC] ≠ [])
    ∧ (DataSummary [recA, recB, recC]).averageIntensity = 3
    ∧ (DataSummary [recA, recB, recC]).maxIntensity = some 20
    ∧ ((DataSummary [recA, recB, recC]).totalObservations
        = [recA, recB, recC].length
      ∧ (DataSummary [recA, recB, recC]).averageIntensity
        = ([recA, recB, recC].map (fun it => it.stats.mean)).sum
            / (([recA, recB, recC] : List FITSData).length : Rat)
      ∧ (∃ m, (DataSummary [recA, recB, recC]).maxIntensity = some m
          ∧ m ∈ [recA, recB, recC].map (fun it => it.stats.max)
          ∧ ∀ x ∈ [recA, recB, recC].map (fun it => it.stats.max), x ≤ m)
      ∧ (∃ m, (DataSummary [recA, recB, recC]).minIntensity = some m
          ∧ m ∈ [recA, recB, recC].map (fun it => it.stats.min)
          ∧ ∀ x ∈ [recA, recB, recC].map (fun it => it.stats.min), m ≤ x)) :=
  ⟨by decide, by norm_num [DataSummary, recA, recB, recC],
    by norm_num [DataSummary, mathMax, recA, recB, recC, max_def],
    summaryCorrectness [recA, recB, recC] (by decide)⟩

/-- The JS prefix test corresponds to the list prefix relation on the
underlying characters. -/
theorem jsStartsWith_iff (key p : String) :
    jsStartsWith key p = true ↔ p.data <+: key.data := by
  unfold jsStartsWith
  exact List.isPrefixOf_iff_prefix

/-- Characters of the year component of a key. -/
theorem yearComponent_data (key : String) :
    (yearComponent key).data = key.data.takeWhile (fun c => !decide (c = '/')) :=
  rfl

/-- When the year component of a key has the same length as the candidate
year, the code's prefix test agrees with string equality of the year
component. -/
theorem yearComponent_eq_iff (key year : String)
    (h : (yearComponent key).length = year.length) :
    jsStartsWith key year = true ↔ yearComponent key = year := by
  have hdatalen : (yearComponent key).data.length = year.data.length := h
  constructor
  · intro hp
    rw [jsStartsWith_iff] at hp
    have htk : (yearComponent key).data <+: key.data := by
      rw [yearComponent_data]
      exact List.takeWhile_prefix _
    have hpre : year.data <+: (yearComponent key).data :=
      List.prefix_of_prefix_length_le hp htk (by omega)
    have heq : year.data = (yearComponent key).data :=
      hpre.eq_of_length (by omega)
    exact congrArg String.mk heq.symm
  · intro hc
    rw [jsStartsWith_iff, ← hc, yearComponent_data]
    exact List.takeWhile_prefix _

/-- C4 counterexample. A cache whose only key is "20221/f.fits" aggregated
under selected year "2022": the key's year component is "20221", not "2022",
so under the claim no entry belongs to the year and the aggregate should be
empty; but the code's `startsWith` test includes the entry and produces a
populated aggregate. -/
theorem yearFiltering_counterexample :
    includedEntries "2022" [("20221/f.fits", rec0)]
        = [("20221/f.fits", rec0)]
      ∧ specIncludedEntries "2022" [("20221/f.fits", rec0)] = []
      ∧ EnhancedStats id "2022" [("20221/f.fits", rec0)] ≠ none := by
  refine ⟨by decide, by decide, by decide⟩

/-- C4 as amended: the aggregation includes exactly the entries whose key has
the selected year as a string prefix; when every cached key's year component
has the same length as the selected year this coincides with the claimed
string equality of year components, and no entry is shared between the
aggregates of two distinct same-length years — in particular loaded entries
under year 2022 never appear in the aggregate computed for year 2023. -/
theorem yearFiltering_amended (year year' : String)
    (cache : List (String × FITSData))
    (h : ∀ kv ∈ cache, (yearComponent kv.1).length = year.length) :
    includedEntries year cache = specIncludedEntries year cache
    ∧ (year'.length = year.length → year' ≠ year →
        ∀ kv ∈ includedEntries year cache,
          kv ∉ includedEntries year' cache) := by
  constructor
  · unfold includedEntries specIncludedEntries
    apply List.filter_congr
    intro kv hkv
    rw [Bool.eq_iff_iff, beq_iff_eq]
    exact yearComponent_eq_iff kv.1 year (h kv hkv)
  · intro hlen hne kv hmem hmem'
    unfold includedEntries at hmem hmem'
    rw [List.mem_filter] at hmem hmem'
    have h1 : year.data <+: kv.1.data := (jsStartsWith_iff _ _).mp hmem.2
    have h2 : year'.data <+: kv.1.data := (jsStartsWith_iff _ _).mp hmem'.2
    have hdatalen : year'.data.length = year.data.length := hlen
    have hpre : year'.data <+: year.data :=
      List.prefix_of_prefix_length_le h2 h1 (by omega)
    have heq : year'.data = year.data := hpre.eq_of_length hdatalen
    exact hne (congrArg String.mk heq)

/-- C4 amended witness: a cache with one key under year 2022, compared
between the distinct same-length years 2022 and 2023. -/
theorem yearFiltering_amended_witness :
    (∀ kv ∈ [("2022/a.fits", rec0)],
        (yearComponent kv.1).length = ("2022" : String).length)
    ∧ (includedEntries "2022" [("2022/a.fits", rec0)]
          = specIncludedEntries "2022" [("2022/a.fits", rec0)]
      ∧ (("2023" : String).length = ("2022" : String).length →
          ("2023" : String) ≠ "2022" →
          ∀ kv ∈ includedEntries "2022" [("2022/a.fits", rec0)],
            kv ∉ includedEntries "2023" [("2022/a.fits", rec0)])) :=
  ⟨by decide, yearFiltering_amended "2022" "2023" [("2022/a.fits", rec0)]
    (by decide)⟩

/-- A resolution carrying an application-level error never touches the
cache. -/
theorem fetchFITSDataComplete_httpError_fitsData (s : AppState)
    (key msg : String) :
    (fetchFITSDataComplete s key (Outcome.httpError msg)).fitsData
      = s.fitsData := by
  unfold fetchFITSDataComplete
  by_cases hk : key ∈ s.pending <;> simp [hk]

/-- A resolution carrying a transport failure never touches the cache. -/
theorem fetchFITSDataComplete_transport_fitsData (s : AppState)
    (key : String) :
    (fetchFITSDataComplete s key Outcome.transport).fitsData = s.fitsData := by
  unfold fetchFITSDataComplete
  by_cases hk : key ∈ s.pending <;> simp [hk]

/-- Over a well-formed trace suffix, a key has a cache entry after running
the suffix exactly when it had one before, or some resolution in the suffix
stored a successfully fetched record for it. -/
theorem foldl_getKey_isSome (t : List Event) :
    ∀ (s : AppState), wfTrace s t = true → ∀ k,
      ((getKey (t.foldl appStep s).fitsData k).isSome = true
        ↔ ((getKey s.fitsData k).isSome = true
            ∨ ∃ r, Event.resolve k (Outcome.success r) ∈ t)) := by
  induction t with
  | nil => intro s _ k; simp
  | cons e es ih =>
    intro s hwf k
    rw [List.foldl_cons]
    have hwf2 : wfTrace (appStep s e) es = true := by
      unfold wfTrace at hwf
      simp only [Bool.and_eq_true] at hwf
      exact hwf.2
    rw [ih (appStep s e) hwf2 k]
    cases e with
    | invoke y f =>
      rw [show (appStep s (Event.invoke y f)).fitsData = s.fitsData from
        fetchFITSDataStart_fitsData s y f]
      simp [List.mem_cons]
    | resolve k' o =>
      have hg : k' ∈ s.pending := by
        unfold wfTrace at hwf
        simp only [Bool.and_eq_true] at hwf
        exact of_decide_eq_true hwf.1
      cases o with
      | success r =>
        have hfd : (appStep s (Event.resolve k' (Outcome.success r))).fitsData
            = setKey s.fitsData k' r := by
          simp [appStep, fetchFITSDataComplete, hg]
        rw [hfd, getKey_setKey]
        by_cases hkk : k' = k
        · subst hkk
          constructor
          · intro _
            exact Or.inr ⟨r, List.mem_cons_self _ _⟩
          · intro _
            left
            simp
        · rw [if_neg hkk]
          constructor
          · rintro (h | ⟨r', hr'⟩)
            · exact Or.inl h
            · exact Or.inr ⟨r', List.mem_cons_of_mem _ hr'⟩
          · rintro (h | ⟨r', hr'⟩)
            · exact Or.inl h
            · rcases List.mem_cons.mp hr' with heq | hmem
              · injection heq with hk1 hk2
                exact absurd hk1.symm hkk
              · exact Or.inr ⟨r', hmem⟩
      | httpError m =>
        rw [show (appStep s (Event.resolve k' (Outcome.httpError m))).fitsData
            = s.fitsData from fetchFITSDataComplete_httpError_fitsData s k' m]
        simp [List.mem_cons]
      | transport =>
        rw [show (appStep s (Event.resolve k' Outcome.transport)).fitsData
            = s.fitsData from fetchFITSDataComplete_transport_fitsData s k']
        simp [List.mem_cons]

/-- C10: over every well-formed event trace, a key holds a cache entry
exactly when some dispatched fetch for that exact key resolved with a 2xx
record; resolutions carrying an application-level or transport failure never
create or modify an entry; and for a key with no successful resolution —
failed or never fetched alike — the next `fetchFITSData` invocation
dispatches the external call again. -/
theorem cachePresenceIffSuccess (t : List Event)
    (h : wfTrace initialState t = true) (year filename : String) :
    ((getKey (appRun t).fitsData (mkKey year filename)).isSome = true
      ↔ ∃ r, Event.resolve (mkKey year filename) (Outcome.success r) ∈ t)
    ∧ ((¬ ∃ r, Event.resolve (mkKey year filename) (Outcome.success r) ∈ t) →
        (fetchFITSDataStart (appRun t) year filename).calls
          = (appRun t).calls ++ [mkKey year filename])
    ∧ (∀ key msg,
        (fetchFITSDataComplete (appRun t) key (Outcome.httpError msg)).fitsData
          = (appRun t).fitsData)
    ∧ (∀ key,
        (fetchFITSDataComplete (appRun t) key Outcome.transport).fitsData
          = (appRun t).fitsData) := by
  have hiff0 := foldl_getKey_isSome t initialState h (mkKey year filename)
  have hbase : getKey initialState.fitsData (mkKey year filename) = none := rfl
  rw [hbase] at hiff0
  simp only [Option.isSome_none, Bool.false_eq_true, false_or] at hiff0
  have hiff : (getKey (appRun t).fitsData (mkKey year filename)).isSome = true
      ↔ ∃ r, Event.resolve (mkKey year filename) (Outcome.success r) ∈ t :=
    hiff0
  refine ⟨hiff, ?_, fun key msg =>
    fetchFITSDataComplete_httpError_fitsData _ key msg, fun key =>
    fetchFITSDataComplete_transport_fitsData _ key⟩
  intro hno
  have hnone : getKey (appRun t).fitsData (mkKey year filename) = none := by
    cases hopt : getKey (appRun t).fitsData (mkKey year filename) with
    | none => rfl
    | some r =>
      exact absurd (hiff.mp (by rw [hopt]; rfl)) hno
  unfold fetchFITSDataStart
  rw [hnone]

/-- C10 witness: a trace in which the only fetch for the key fails with an
application-level error, so the key reads as absent. -/
theorem cachePresenceIffSuccess_witness :
    wfTrace initialState [Event.invoke "2022" "a.fits",
        Event.resolve "2022/a.fits" (Outcome.httpError "File not found")]
      = true
    ∧ (((getKey (appRun [Event.invoke "2022" "a.fits",
          Event.resolve "2022/a.fits"
            (Outcome.httpError "File not found")]).fitsData
          (mkKey "2022" "a.fits")).isSome = true
        ↔ ∃ r, Event.resolve (mkKey "2022" "a.fits") (Outcome.success r)
            ∈ [Event.invoke "2022" "a.fits",
               Event.resolve "2022/a.fits"
                 (Outcome.httpError "File not found")])
      ∧ ((¬ ∃ r, Event.resolve (mkKey "2022" "a.fits") (Outcome.success r)
            ∈ [Event.invoke "2022" "a.fits",
               Event.resolve "2022/a.fits"
                 (Outcome.httpError "File not found")]) →
          (fetchFITSDataStart (appRun [Event.invoke "2022" "a.fits",
              Event.resolve "2022/a.fits"
                (Outcome.httpError "File not found")]) "2022" "a.fits").calls
            = (appRun [Event.invoke "2022" "a.fits",
                Event.resolve "2022/a.fits"
                  (Outcome.httpError "File not found")]).calls
              ++ [mkKey "2022" "a.fits"])
      ∧ (∀ key msg,
          (fetchFITSDataComplete (appRun [Event.invoke "2022" "a.fits",
              Event.resolve "2022/a.fits"
                (Outcome.httpError "File not found")]) key
              (Outcome.httpError msg)).fitsData
            = (appRun [Event.invoke "2022" "a.fits",
                Event.resolve "2022/a.fits"
                  (Outcome.httpError "File not found")]).fitsData)
      ∧ (∀ key,
          (fetchFITSDataComplete (appRun [Event.invoke "2022" "a.fits",
              Event.resolve "2022/a.fits"
                (Outcome.httpError "File not found")]) key
              Outcome.transport).fitsData
            = (appRun [Event.invoke "2022" "a.fits",
                Event.resolve "2022/a.fits"
                  (Outcome.httpError "File not found")]).fitsData)) :=
  ⟨by decide,
    cachePresenceIffSuccess [Event.invoke "2022" "a.fits",
      Event.resolve "2022/a.fits" (Outcome.httpError "File not found")]
      (by decide) "2022" "a.fits"⟩

/-- C6: every chart point produced by `StatsOverTime` carries the entry's
four statistics, but its date comes from the absent `observation_date` field,
so it is the invalid-date rendering for every record — not the
filename-derived timestamp the claim describes, which for the sample
filename is the distinct string computed by `formatDateTime`. -/
theorem seriesPointContent (toLocale : String → String) :
    (∀ data : List FITSData,
        StatsOverTime toLocale data
          = data.map (fun item =>
              { date := "Invalid Date", min := item.stats.min,
                max := item.stats.max, mean := item.stats.mean,
                stdev := item.stats.stdev }))
    ∧ formatDateTime "AIA.20221023_084600.0094.synoptic.fits".toList
      = some "23/10/2022 08:46".toList
    ∧ "Invalid Date" ≠ "23/10/2022 08:46" := by
  refine ⟨fun data => rfl, by decide, by decide⟩

/-- Unfolding equation of `splitOnChar` on a cons cell. -/
theorem splitOnChar_cons (sep c : Char) (cs : List Char) :
    splitOnChar sep (c :: cs)
      = if c = sep then [] :: splitOnChar sep cs
        else match splitOnChar sep cs with
          | [] => [[c]]
          | seg :: segs => (c :: seg) :: segs := rfl

/-- Splitting never yields an empty segment list. -/
theorem splitOnChar_ne_nil (sep : Char) (l : List Char) :
    splitOnChar sep l ≠ [] := by
  cases l with
  | nil => simp [splitOnChar]
  | cons c cs =>
    rw [splitOnChar_cons]
    by_cases h : c = sep
    · simp [h]
    · rw [if_neg h]
      cases hs : splitOnChar sep cs with
      | nil => simp
      | cons a as => simp

/-- The first segment of a split is the longest separator-free prefix. -/
theorem splitOnChar_head (sep : Char) (l : List Char) :
    ∃ segs, splitOnChar sep l
      = l.takeWhile (fun c => !decide (c = sep)) :: segs := by
  induction l with
  | nil => exact ⟨[], rfl⟩
  | cons c cs ih =>
    by_cases h : c = sep
    · refine ⟨splitOnChar sep cs, ?_⟩
      rw [splitOnChar_cons, if_pos h]
      simp [List.takeWhile_cons, h]
    · obtain ⟨segs, hsegs⟩ := ih
      refine ⟨segs, ?_⟩
      rw [splitOnChar_cons, if_neg h, hsegs]
      simp [List.takeWhile_cons, h]

/-- Splitting at the first separator occurrence: a separator-free block
followed by a separator peels off as the first segment. -/
theorem splitOnChar_append (sep : Char) (xs ys : List Char) (h : sep ∉ xs) :
    splitOnChar sep (xs ++ sep :: ys) = xs :: splitOnChar sep ys := by
  induction xs with
  | nil =>
    simp only [List.nil_append]
    rw [splitOnChar_cons, if_pos rfl]
  | cons c cs ih =>
    rw [List.mem_cons, not_or] at h
    obtain ⟨h1, h2⟩ := h
    have hc : ¬ c = sep := fun hh => h1 hh.symm
    rw [List.cons_append, splitOnChar_cons, if_neg hc, ih h2]

/-- A digit is not a dot. -/
theorem isDigit_not_dot {c : Char} (h : c.isDigit = true) :
    (!decide (c = '.')) = true := by
  by_cases hc : c = '.'
  · subst hc; exact absurd h (by decide)
  · simp [hc]

/-- A digit is not an underscore. -/
theorem isDigit_not_underscore {c : Char} (h : c.isDigit = true) :
    (!decide (c = '_')) = true := by
  by_cases hc : c = '_'
  · subst hc; exact absurd h (by decide)
  · simp [hc]

/-- A non-digit character does not occur in an all-digit block. -/
theorem not_mem_of_all_digit (d : List Char)
    (hd : ∀ c ∈ d, c.isDigit = true) (x : Char) (hx : x.isDigit = false) :
    x ∉ d := by
  intro hmem
  rw [hd x hmem] at hx
  cases hx

/-- C9: on every filename of the layout INSTR-dot-YYYYMMDD-underscore-HHMM...
-dot-rest (instrument block free of dots and underscores, eight date digits,
at least four time digits), `formatDateTime` returns the DD/MM/YYYY HH:MM
string assembled from the digits at the fixed offsets of the date and time
blocks. -/
theorem formatDateTime_layout (instr d t rest : List Char)
    (h1 : '.' ∉ instr) (h2 : '_' ∉ instr)
    (hdlen : d.length = 8) (hd : ∀ c ∈ d, c.isDigit = true)
    (htlen : 4 ≤ t.length) (ht : ∀ c ∈ t.take 4, c.isDigit = true) :
    formatDateTime (instr ++ '.' :: (d ++ '_' :: (t ++ '.' :: rest)))
      = some (d.drop 6 ++ '/' :: (d.take 6).drop 4 ++ '/' :: d.take 4
          ++ ' ' :: t.take 2 ++ ':' :: (t.take 4).drop 2) := by
  have hddot : '.' ∉ d :=
    not_mem_of_all_digit d hd '.' (by decide)
  have hdus : '_' ∉ d :=
    not_mem_of_all_digit d hd '_' (by decide)
  -- the first dot-split segment after the instrument block
  obtain ⟨segs1, hsegs1⟩ :=
    splitOnChar_head '.' (d ++ '_' :: (t ++ '.' :: rest))
  have hsplit1 :
      (splitOnChar '.' (instr ++ '.' :: (d ++ '_' :: (t ++ '.' :: rest)))).get? 1
        = some ((d ++ '_' :: (t ++ '.' :: rest)).takeWhile
            (fun c => !decide (c = '.'))) := by
    rw [splitOnChar_append '.' instr _ h1, hsegs1]
    rfl
  -- that segment is the date block, the underscore, then a tail
  have hseg1 : (d ++ '_' :: (t ++ '.' :: rest)).takeWhile
        (fun c => !decide (c = '.'))
      = d ++ '_' :: ((t ++ '.' :: rest).takeWhile
          (fun c => !decide (c = '.'))) := by
    have hform : d ++ '_' :: (t ++ '.' :: rest)
        = (d ++ ['_']) ++ (t ++ '.' :: rest) := by simp
    rw [hform, List.takeWhile_append_of_pos ?hall]
    · simp
    case hall =>
      intro a ha
      rcases List.mem_append.mp ha with had | hau
      · exact isDigit_not_dot (hd a had)
      · rw [List.mem_singleton.mp hau]
        decide
  -- the date part extracted from the segment is exactly the date block
  have hdate : ∀ w : List Char,
      ((splitOnChar '_' (d ++ '_' :: w)).get? 0).getD [] = d := by
    intro w
    rw [splitOnChar_append '_' d w hdus]
    rfl
  -- the first underscore-split segment after instrument-dot-date
  obtain ⟨segs2, hsegs2⟩ := splitOnChar_head '_' (t ++ '.' :: rest)
  have hsplit2 :
      (splitOnChar '_' (instr ++ '.' :: (d ++ '_' :: (t ++ '.' :: rest)))).get? 1
        = some ((t ++ '.' :: rest).takeWhile (fun c => !decide (c = '_'))) := by
    have hform : instr ++ '.' :: (d ++ '_' :: (t ++ '.' :: rest))
        = (instr ++ '.' :: d) ++ '_' :: (t ++ '.' :: rest) := by simp
    have hnous : '_' ∉ instr ++ '.' :: d := by
      rw [List.mem_append, List.mem_cons]
      rintro (hu | hu | hu)
      · exact h2 hu
      · cases hu
      · exact hdus hu
    rw [hform, splitOnChar_append '_' _ _ hnous, hsegs2]
    rfl
  -- the time part is the first four time digits
  have htime : ((t ++ '.' :: rest).takeWhile
        (fun c => !decide (c = '_'))).take 4
      = t.take 4 := by
    have hform : t ++ '.' :: rest
        = t.take 4 ++ (t.drop 4 ++ '.' :: rest) := by
      rw [← List.append_assoc, List.take_append_drop]
    rw [hform, List.takeWhile_append_of_pos ?hall4]
    · have hlen4 : (t.take 4).length = 4 := by
        rw [List.length_take]
        omega
      exact List.take_left' hlen4
    case hall4 =>
      intro a ha
      exact isDigit_not_underscore (ht a ha)
  have htake8 : d.take 8 = d := by
    rw [show (8 : Nat) = d.length from hdlen.symm, List.take_length]
  simp only [formatDateTime, hsplit1, hsplit2, hseg1, hdate, htime]
  rw [htake8]
  simp [List.take_take]

/-- C9 witness: the sample filename of the spec, assembled from its layout
blocks, formats to the expected observation time. -/
theorem formatDateTime_layout_witness :
    ("AIA".toList ++ '.' :: ("20221023".toList ++ '_' ::
        ("084600".toList ++ '.' :: "0094.synoptic.fits".toList)))
      = "AIA.20221023_084600.0094.synoptic.fits".toList
    ∧ ('.' ∉ "AIA".toList) ∧ ('_' ∉ "AIA".toList)
    ∧ ("20221023".toList.length = 8)
    ∧ (∀ c ∈ "20221023".toList, c.isDigit = true)
    ∧ (4 ≤ "084600".toList.length)
    ∧ (∀ c ∈ "084600".toList.take 4, c.isDigit = true)
    ∧ formatDateTime ("AIA".toList ++ '.' :: ("20221023".toList ++ '_' ::
        ("084600".toList ++ '.' :: "0094.synoptic.fits".toList)))
      = some "23/10/2022 08:46".toList :=
  ⟨by decide, by decide, by decide, by decide, by decide, by decide, by decide,
    by
      rw [formatDateTime_layout "AIA".toList "20221023".toList "084600".toList
        "0094.synoptic.fits".toList (by decide) (by decide) (by decide)
        (by decide) (by decide) (by decide)]
      decide⟩
